import Mathlib

/-!
Verification of the arkhe-claude-plugins utility scripts.

Each section embeds one component of the repository as executable Lean
definitions (translated from the Python source) and proves the properties
claimed about it.  Python strings are modelled as Lean `String` / `List Char`,
Python sets as `Finset String`, fallible operations as `Option`.
-/

/-! ## Udemy API client: `_make_request` retry loop
    (skola/skills/extract-udemy/scripts/api_client.py, lines 156-245)

One call attempt can end in one of these ways, mirroring the branches of the
`try`/`except` in `_make_request`: an HTTP 200 with a JSON payload, an HTTP
200-range status other than 200, an `HTTPError`, a `URLError` whose reason
contains "timed out", any other `URLError`, a `JSONDecodeError`, or any other
exception. -/

inductive ReqOutcome where
  | success (payload : Nat)
  | non200 (status : Nat)
  | httpError (code : Nat)
  | timeoutError
  | netError
  | jsonError
  | otherError
deriving DecidableEq

/-- `base_delay = 2` seconds in `_make_request`. -/
def baseDelay : Nat := 2

/-- The retry loop of `_make_request`, one step per attempt.  `o a` is the
outcome of attempt number `a` (attempts are numbered from 1 as in the Python
`for attempt in range(1, self.max_retries + 1)`).  `fuel` is the number of
loop iterations left.  Returns the result (`some` parsed payload or `none`)
together with the list of back-off delays slept, in order. -/
def runAttempts (o : Nat → ReqOutcome) (maxRetries : Nat) : Nat → Nat → Option Nat × List Nat
  | _, 0 => (none, [])
  | attempt, fuel + 1 =>
    match o attempt with
    | .success p => (some p, [])
    | .non200 _ => (none, [])
    | .httpError _ => (none, [])
    | .timeoutError =>
      if attempt < maxRetries then
        let r := runAttempts o maxRetries (attempt + 1) fuel
        (r.1, baseDelay * 2 ^ (attempt - 1) :: r.2)
      else
        (none, [])
    | .netError => (none, [])
    | .jsonError => (none, [])
    | .otherError => (none, [])

/-- `UdemyAPIClient._make_request` with `max_retries = maxRetries`. -/
def makeRequest (o : Nat → ReqOutcome) (maxRetries : Nat) : Option Nat × List Nat :=
  runAttempts o maxRetries 1 maxRetries

lemma runAttempts_all_timeout (o : Nat → ReqOutcome) (m : Nat) :
    ∀ fuel attempt, 1 ≤ attempt → attempt + fuel = m + 1 →
      (∀ i, attempt ≤ i → i ≤ m → o i = .timeoutError) →
      runAttempts o m attempt fuel =
        (none, (List.range (m - attempt)).map fun i => baseDelay * 2 ^ (attempt - 1 + i)) := by
  intro fuel
  induction fuel with
  | zero =>
    intro attempt h1 hsum _
    have : m - attempt = 0 := by omega
    simp [runAttempts, this]
  | succ fuel ih =>
    intro attempt h1 hsum htime
    have hle : attempt ≤ m := by omega
    have hA : o attempt = .timeoutError := htime attempt le_rfl hle
    by_cases hlt : attempt < m
    · have hrec := ih (attempt + 1) (by omega) (by omega)
        (fun i hi hi2 => htime i (by omega) hi2)
      simp only [runAttempts, hA, hlt, if_true, hrec]
      have hrange : m - attempt = (m - (attempt + 1)) + 1 := by omega
      rw [hrange, List.range_succ_eq_map]
      have hhead : attempt - 1 + 0 = attempt - 1 := by omega
      have htail : ∀ a : ℕ, attempt + 1 - 1 + a = attempt - 1 + (a + 1) := fun a => by omega
      simp only [List.map_cons, List.map_map, Function.comp_def, Nat.succ_eq_add_one, hhead, htail]
    · have heq : attempt = m := by omega
      have : m - attempt = 0 := by omega
      simp [runAttempts, hA, hlt, this]

lemma runAttempts_success_after_timeouts (o : Nat → ReqOutcome) (m j : Nat) (p : Nat)
    (hj : o j = .success p) :
    ∀ fuel attempt, 1 ≤ attempt → attempt + fuel = m + 1 →
      attempt ≤ j → j ≤ m →
      (∀ i, attempt ≤ i → i < j → o i = .timeoutError) →
      runAttempts o m attempt fuel =
        (some p, (List.range (j - attempt)).map fun i => baseDelay * 2 ^ (attempt - 1 + i)) := by
  intro fuel
  induction fuel with
  | zero =>
    intro attempt _ hsum haj hjm _
    omega
  | succ fuel ih =>
    intro attempt h1 hsum haj hjm htime
    by_cases hja : attempt = j
    · subst hja
      simp [runAttempts, hj, Nat.sub_self]
    · have hA : o attempt = .timeoutError := htime attempt le_rfl (by omega)
      have hlt : attempt < m := by omega
      have hrec := ih (attempt + 1) (by omega) (by omega) (by omega) hjm
        (fun i hi hi2 => htime i (by omega) hi2)
      simp only [runAttempts, hA, hlt, if_true, hrec]
      have hrange : j - attempt = (j - (attempt + 1)) + 1 := by omega
      rw [hrange, List.range_succ_eq_map]
      have hhead : attempt - 1 + 0 = attempt - 1 := by omega
      have htail : ∀ a : ℕ, attempt + 1 - 1 + a = attempt - 1 + (a + 1) := fun a => by omega
      simp only [List.map_cons, List.map_map, Function.comp_def, Nat.succ_eq_add_one, hhead, htail]

/-- Claim C1: in `_make_request`, a network timeout is retried up to
`max_retries` attempts with back-off delays `base_delay * 2^(attempt-1)`
(`base_delay = 2`); an `HTTPError` (e.g. HTTP 401 or 404) returns `None`
immediately with no retry and no sleep; a non-timeout network error, invalid
JSON, or any other exception is likewise terminal and returns `None`; a
successful HTTP 200 response returns the parsed payload.  In particular, if
the first `j - 1` attempts time out and attempt `j ≤ max_retries` succeeds,
the result is the payload after sleeping exactly
`[2*2^0, ..., 2*2^(j-2)]` seconds; if all `max_retries` attempts time out the
result is `None` after sleeping `[2*2^0, ..., 2*2^(max_retries-2)]`. -/
theorem makeRequest_retry_policy (o : Nat → ReqOutcome) (m : Nat) :
    (∀ c, 1 ≤ m → o 1 = .httpError c → makeRequest o m = (none, [])) ∧
    (1 ≤ m → o 1 = .netError → makeRequest o m = (none, [])) ∧
    (1 ≤ m → o 1 = .jsonError → makeRequest o m = (none, [])) ∧
    (1 ≤ m → o 1 = .otherError → makeRequest o m = (none, [])) ∧
    (∀ p, 1 ≤ m → o 1 = .success p → makeRequest o m = (some p, [])) ∧
    ((∀ i, 1 ≤ i → i ≤ m → o i = .timeoutError) →
      makeRequest o m = (none, (List.range (m - 1)).map fun i => baseDelay * 2 ^ i)) ∧
    (∀ j p, 1 ≤ j → j ≤ m → (∀ i, 1 ≤ i → i < j → o i = .timeoutError) →
      o j = .success p →
      makeRequest o m = (some p, (List.range (j - 1)).map fun i => baseDelay * 2 ^ i)) := by
  refine ⟨?_, ?_, ?_, ?_, ?_, ?_, ?_⟩
  · intro c hm h
    obtain ⟨m', rfl⟩ : ∃ m', m = m' + 1 := ⟨m - 1, by omega⟩
    simp [makeRequest, runAttempts, h]
  · intro hm h
    obtain ⟨m', rfl⟩ : ∃ m', m = m' + 1 := ⟨m - 1, by omega⟩
    simp [makeRequest, runAttempts, h]
  · intro hm h
    obtain ⟨m', rfl⟩ : ∃ m', m = m' + 1 := ⟨m - 1, by omega⟩
    simp [makeRequest, runAttempts, h]
  · intro hm h
    obtain ⟨m', rfl⟩ : ∃ m', m = m' + 1 := ⟨m - 1, by omega⟩
    simp [makeRequest, runAttempts, h]
  · intro p hm h
    obtain ⟨m', rfl⟩ : ∃ m', m = m' + 1 := ⟨m - 1, by omega⟩
    simp [makeRequest, runAttempts, h]
  · intro htime
    have := runAttempts_all_timeout o m m 1 le_rfl (by omega) htime
    simpa [makeRequest] using this
  · intro j p hj1 hjm htime hsucc
    have := runAttempts_success_after_timeouts o m j p hsucc m 1 le_rfl (by omega) hj1 hjm
      (fun i hi hi2 => htime i hi hi2)
    simpa [makeRequest] using this

/-- Witness for C1: with `max_retries = 3` and attempts 1, 2 timing out and
attempt 3 succeeding with payload 7, the call returns the payload after
sleeping 2 then 4 seconds. -/
theorem makeRequest_retry_policy_witness :
    makeRequest
      (fun a => if a ≤ 2 then ReqOutcome.timeoutError else ReqOutcome.success 7) 3 =
      (some 7, [2, 4]) := by
  have h := (makeRequest_retry_policy
    (fun a => if a ≤ 2 then ReqOutcome.timeoutError else ReqOutcome.success 7) 3).2.2.2.2.2.2
  have := h 3 7 (by decide) (by decide)
    (fun i hi hi2 => by
      have : i ≤ 2 := by omega
      simp [this])
    (by norm_num)
  simpa using this

/-! ## Resumable progress tracking
    (skola/skills/extract-udemy/scripts/file_writer.py, lines 76-78 and
    465-521; skola/skills/extract-udemy/scripts/extract.py, lines 498-502
    and the main lecture loop at lines 545-656)

`CourseFileWriter` keeps a persisted progress file (a JSON object holding a
list `completed_lectures`) and an in-memory set `self.completed_lectures`
loaded from that file at construction time. -/

/-- The writer state: the progress file on disk (`none` when the file does
not exist) and the in-memory `completed_lectures` set. -/
structure WriterState where
  persisted : Option (Finset String)
  completed : Finset String
deriving DecidableEq

/-- `CourseFileWriter._load_progress`: read the set from the progress file,
or the empty set when the file does not exist. -/
def loadProgress : Option (Finset String) → Finset String
  | none => ∅
  | some s => s

/-- `CourseFileWriter.__init__` (progress part): `self.completed_lectures =
self._load_progress()`. -/
def initWriter (file : Option (Finset String)) : WriterState :=
  ⟨file, loadProgress file⟩

/-- `CourseFileWriter.mark_lecture_complete`: add the id to the in-memory
set, then `_save_progress` rewrites the whole set to the progress file. -/
def markLectureComplete (w : WriterState) (lectureId : String) : WriterState :=
  let c := insert lectureId w.completed
  ⟨some c, c⟩

/-- `CourseFileWriter.is_lecture_complete`: membership in the in-memory set. -/
def isLectureComplete (w : WriterState) (lectureId : String) : Bool :=
  lectureId ∈ w.completed

/-- `CourseFileWriter.clear_progress`: unlink the progress file if it exists.
The in-memory `completed_lectures` set is NOT touched. -/
def clearProgress (w : WriterState) : WriterState :=
  ⟨none, w.completed⟩

/-- One lecture as seen by the main loop of `extract.py`: its id (`none` when
`lecture.get('id')` is falsy) and whether `detect_content_type` classifies it
as promotional. -/
structure LoopLecture where
  id : Option String
  promotional : Bool

/-- One iteration of the main lecture loop in `extract.py`: skip when the id
is missing, when `is_lecture_complete` holds, or when promotional content is
being skipped; otherwise process the lecture and `mark_lecture_complete`.
Returns the new state and whether the lecture was processed. -/
def processLecture (skipPromo : Bool) (w : WriterState) (l : LoopLecture) :
    WriterState × Bool :=
  match l.id with
  | none => (w, false)
  | some i =>
    if isLectureComplete w i then (w, false)
    else if skipPromo && l.promotional then (w, false)
    else (markLectureComplete w i, true)

/-- The main lecture loop over a flattened lecture list. -/
def runLectures (skipPromo : Bool) : WriterState → List LoopLecture → WriterState
  | w, [] => w
  | w, l :: ls => runLectures skipPromo (processLecture skipPromo w l).1 ls

/-- The persistence invariant: the set stored in the progress file (read back
with `_load_progress`) coincides with the in-memory completed set. -/
def ProgressSynced (w : WriterState) : Prop :=
  loadProgress w.persisted = w.completed

lemma processLecture_synced (skipPromo : Bool) (w : WriterState) (l : LoopLecture)
    (h : ProgressSynced w) : ProgressSynced (processLecture skipPromo w l).1 := by
  unfold processLecture
  cases l.id with
  | none => exact h
  | some i =>
    by_cases hc : isLectureComplete w i
    · simpa [hc]
    · by_cases hp : skipPromo && l.promotional
      · simpa [hc, hp]
      · simp [hc, hp, markLectureComplete, ProgressSynced, loadProgress]

lemma processLecture_mono (skipPromo : Bool) (w : WriterState) (l : LoopLecture) :
    w.completed ⊆ (processLecture skipPromo w l).1.completed := by
  unfold processLecture
  cases l.id with
  | none => exact Finset.Subset.refl _
  | some i =>
    by_cases hc : isLectureComplete w i
    · simp [hc]
    · by_cases hp : skipPromo && l.promotional
      · simp [hc, hp]
      · simp only [hc, hp, if_false, Bool.false_eq_true, markLectureComplete]
        exact Finset.subset_insert _ _

lemma runLectures_synced (skipPromo : Bool) (ls : List LoopLecture) :
    ∀ w, ProgressSynced w → ProgressSynced (runLectures skipPromo w ls) := by
  induction ls with
  | nil => intro w h; exact h
  | cons l ls ih =>
    intro w h
    exact ih _ (processLecture_synced skipPromo w l h)

lemma runLectures_mono (skipPromo : Bool) (ls : List LoopLecture) :
    ∀ w, w.completed ⊆ (runLectures skipPromo w ls).completed := by
  induction ls with
  | nil => intro w; exact Finset.Subset.refl _
  | cons l ls ih =>
    intro w
    exact Finset.Subset.trans (processLecture_mono skipPromo w l) (ih _)

/-- Claim C2: during an extraction run over lectures with non-empty ids:
a lecture whose id is in the completed set loaded from the persisted progress
file is skipped without processing; a lecture whose id is not in the current
completed set (and not promotional-skipped) is processed, its id is added to
the completed set, and the whole set is immediately rewritten to the progress
file; and at every point of the loop the persisted set equals the in-memory
completed set, which contains exactly the initially loaded ids plus those
marked since. -/
theorem lecture_loop_progress_invariant (file : Option (Finset String))
    (skipPromo : Bool) :
    (ProgressSynced (initWriter file)) ∧
    (∀ w l i, l.id = some i → isLectureComplete w i = true →
      processLecture skipPromo w l = (w, false)) ∧
    (∀ w l i, l.id = some i → i ∈ loadProgress file →
      loadProgress file ⊆ w.completed →
      processLecture skipPromo w l = (w, false)) ∧
    (∀ w l i, l.id = some i → isLectureComplete w i = false →
      (skipPromo && l.promotional) = false →
      processLecture skipPromo w l =
        (⟨some (insert i w.completed), insert i w.completed⟩, true)) ∧
    (∀ ls w, ProgressSynced w → ProgressSynced (runLectures skipPromo w ls)) ∧
    (∀ ls, loadProgress file ⊆ (runLectures skipPromo (initWriter file) ls).completed) := by
  refine ⟨rfl, ?_, ?_, ?_, ?_, ?_⟩
  · intro w l i hid hc
    unfold processLecture
    rw [hid]
    simp [hc]
  · intro w l i hid hmem hsub
    unfold processLecture
    rw [hid]
    have : isLectureComplete w i = true := by
      simpa [isLectureComplete] using hsub hmem
    simp [this]
  · intro w l i hid hc hp
    unfold processLecture
    rw [hid]
    simp [hc, hp, markLectureComplete]
  · exact fun ls w h => runLectures_synced skipPromo ls w h
  · intro ls
    exact runLectures_mono skipPromo ls (initWriter file)

/-- Witness for C2: starting from a progress file containing `{"10"}` and
running over lectures `11` (new) and `10` (already completed), lecture 11 is
processed and persisted, lecture 10 is skipped, and the final persisted set
equals the final in-memory set `{"10", "11"}`. -/
theorem lecture_loop_progress_invariant_witness :
    processLecture false (initWriter (some {"10"})) ⟨some "10", false⟩ =
      (initWriter (some {"10"}), false) ∧
    runLectures false (initWriter (some {"10"}))
      [⟨some "11", false⟩, ⟨some "10", false⟩] =
      ⟨some (insert "11" {"10"}), insert "11" {"10"}⟩ ∧
    ProgressSynced (runLectures false (initWriter (some {"10"}))
      [⟨some "11", false⟩, ⟨some "10", false⟩]) := by
  refine ⟨?_, ?_, ?_⟩
  · exact (lecture_loop_progress_invariant (some {"10"}) false).2.1
      (initWriter (some {"10"})) ⟨some "10", false⟩ "10" rfl (by decide)
  · decide
  · exact (lecture_loop_progress_invariant (some {"10"}) false).2.2.2.2.1
      [⟨some "11", false⟩, ⟨some "10", false⟩] (initWriter (some {"10"})) rfl

/-- Claim C3 (code behavior at the failing input): with `--no-resume` and an
existing progress file containing lecture id "42", `extract.py` constructs the
file writer (loading the persisted set into memory) and then calls
`clear_progress`, which only unlinks the file; the in-memory set keeps "42",
so the loop still skips lecture 42 on that run, contradicting the claim that
no lecture is skipped because of the previously persisted set. -/
theorem no_resume_still_skips_counterexample :
    (clearProgress (initWriter (some {"42"}))).persisted = none ∧
    isLectureComplete (clearProgress (initWriter (some {"42"}))) "42" = true ∧
    processLecture true (clearProgress (initWriter (some {"42"})))
      ⟨some "42", false⟩ = (clearProgress (initWriter (some {"42"})), false) := by
  refine ⟨rfl, by decide, by decide⟩

/-! ## Content-type classification
    (skola/skills/extract-udemy/scripts/api_client.py, lines 718-761)

Python strings are sequences of characters; `str.lower()` is modelled
ASCII-wise (codes 65-90 shifted by 32), and `needle in haystack` is
contiguous-substring search. -/

/-- `str.lower()` on one character: ASCII codes 65-90 ('A'-'Z') map to 97-122. -/
def lowerChar (c : Char) : Char :=
  if 65 ≤ c.toNat && c.toNat ≤ 90 then Char.ofNat (c.toNat + 32) else c

/-- `str.lower()`. -/
def lowerStr (s : String) : String :=
  String.mk (s.toList.map lowerChar)

/-- Python `needle in haystack` for strings: contiguous substring search. -/
def containsSub (needle : List Char) : List Char → Bool
  | [] => needle.isEmpty
  | c :: t => needle.isPrefixOf (c :: t) || containsSub needle t

/-- Python `needle in haystack` at the `String` level. -/
def pyIn (needle hay : String) : Bool :=
  containsSub needle.toList hay.toList

/-- `UdemyAPIClient.detect_content_type`.  Inputs are the lecture's
`asset.asset_type` (before lowering; missing field = `""`), the truthiness of
`asset.media_sources`, `asset.body` and `lecture.view_html`, and the lecture
title (before lowering; missing = `""`). -/
def detectContentType (assetType : String) (hasMediaSources hasBody hasViewHtml : Bool)
    (titleArg : String) : String :=
  if lowerStr assetType == "video" || hasMediaSources then "video"
  else if lowerStr assetType == "article" || hasBody || hasViewHtml then
    if pyIn "solution" (lowerStr titleArg) then "coding_solution"
    else if pyIn "quiz" (lowerStr titleArg) || pyIn "exercise" (lowerStr titleArg)
        || pyIn "practice" (lowerStr titleArg) then
      if pyIn "quiz" (lowerStr titleArg) then "quiz" else "coding_exercise"
    else if pyIn "bonus" (lowerStr titleArg) || pyIn "keep learning" (lowerStr titleArg)
        || pyIn "certificate" (lowerStr titleArg)
        || pyIn "congratulations" (lowerStr titleArg) then "promotional"
    else if pyIn "additional resource" (lowerStr titleArg) || pyIn "tips" (lowerStr titleArg)
        || pyIn "guide" (lowerStr titleArg) || pyIn "reference" (lowerStr titleArg) then
      "technical_resource"
    else "article"
  else if lowerStr assetType == "e-book" || lowerStr assetType == "file" then "ebook"
  else "unknown"

/-- The classification exactly as the specification words it: an ordered
first-match-wins rule list — a `video` asset type or present media sources
yield `video`; otherwise an article asset (asset type `article`, or a body,
or view HTML) is sub-classified by title substrings checked in the order
solution, then quiz/exercise/practice (yielding `quiz` when the title
contains `quiz` and `coding_exercise` otherwise), then promotional keywords,
then technical-resource keywords, defaulting to `article`; otherwise asset
type `e-book` or `file` yields `ebook`; otherwise `unknown`. -/
def detectContentTypeSpec (assetType : String) (hasMediaSources hasBody hasViewHtml : Bool)
    (titleArg : String) : String :=
  if lowerStr assetType == "video" || hasMediaSources then "video"
  else if lowerStr assetType == "article" || hasBody || hasViewHtml then
    if pyIn "solution" (lowerStr titleArg) then "coding_solution"
    else if pyIn "quiz" (lowerStr titleArg) || pyIn "exercise" (lowerStr titleArg)
        || pyIn "practice" (lowerStr titleArg) then
      if pyIn "quiz" (lowerStr titleArg) then "quiz" else "coding_exercise"
    else if pyIn "bonus" (lowerStr titleArg) || pyIn "keep learning" (lowerStr titleArg)
        || pyIn "certificate" (lowerStr titleArg)
        || pyIn "congratulations" (lowerStr titleArg) then "promotional"
    else if pyIn "additional resource" (lowerStr titleArg) || pyIn "tips" (lowerStr titleArg)
        || pyIn "guide" (lowerStr titleArg) || pyIn "reference" (lowerStr titleArg) then
      "technical_resource"
    else "article"
  else if lowerStr assetType == "e-book" || lowerStr assetType == "file" then "ebook"
  else "unknown"

/-- Claim C4: `detect_content_type` always returns exactly one tag from the
fixed set {video, article, coding_solution, quiz, coding_exercise,
promotional, technical_resource, ebook, unknown}, and its decision procedure
coincides with the ordered first-match-wins rule list stated in the
specification. -/
theorem detect_content_type_fixed_tags :
    (∀ a m b v t, detectContentType a m b v t ∈
      (["video", "article", "coding_solution", "quiz", "coding_exercise",
        "promotional", "technical_resource", "ebook", "unknown"] : List String)) ∧
    (∀ a m b v t, detectContentType a m b v t = detectContentTypeSpec a m b v t) := by
  constructor
  · intro a m b v t
    unfold detectContentType
    split_ifs <;> simp
  · intro a m b v t
    rfl

/-! ## Cache expiration
    (plugins/core/skills/deep-research/scripts/cache_manager.py, lines 162-182)

`check_expiration` reads `metadata["expires_at"]`: an empty/missing field and
an unparseable timestamp are both reported expired; a parseable ISO-8601
timestamp is compared against the current time with the strict `>` of Python
`datetime` objects.  Instants on the shared timeline are modelled as `Int`. -/

/-- The three relevant shapes of the `expires_at` metadata field, mirroring
the branches of `check_expiration`: missing/empty string, a string
`datetime.fromisoformat` rejects, or a string parsed to the instant `t`. -/
inductive ExpiresField where
  | missing
  | unparseable
  | parsed (t : Int)
deriving DecidableEq

/-- `check_expiration` (the `expired` component of its result): missing and
unparseable timestamps are expired; otherwise `now > expires_at`. -/
def checkExpiration (f : ExpiresField) (now : Int) : Bool :=
  match f with
  | .missing => true
  | .unparseable => true
  | .parsed t => decide (now > t)

/-- Claim C5: for a cache entry whose metadata carries a parseable ISO-8601
`expires_at` timestamp, `check_expiration` reports it expired precisely when
the current time is strictly greater than `expires_at`, and never at or
before it. -/
theorem checkExpiration_strictly_after (t now : Int) :
    (checkExpiration (.parsed t) now = true ↔ t < now) ∧
    (now ≤ t → checkExpiration (.parsed t) now = false) ∧
    checkExpiration (.parsed t) t = false := by
  refine ⟨?_, ?_, ?_⟩
  · simp [checkExpiration]
  · intro h
    simp [checkExpiration]
    omega
  · simp [checkExpiration]

/-- Witness for C5: at `now = 5` an entry expiring at 5 is not expired, and
at `now = 6` it is. -/
theorem checkExpiration_strictly_after_witness :
    checkExpiration (.parsed 5) 5 = false ∧ checkExpiration (.parsed 5) 6 = true := by
  constructor
  · exact (checkExpiration_strictly_after 5 5).2.1 (by norm_num)
  · exact (checkExpiration_strictly_after 5 6).1.mpr (by norm_num)

/-! ## Slug normalization
    (plugins/core/skills/deep-research/scripts/cache_manager.py, lines 50-74)

`normalize_slug` lowercases, replaces "c#" by "csharp" and "c++" by "cpp",
replaces each maximal run of characters outside `[a-z0-9]` by a single
hyphen, strips leading/trailing hyphens, and collapses hyphen runs.  The
regex substitutions are modelled as one-pass state machines over the
character list; `str.replace` as a left-to-right non-overlapping scan. -/

/-- The regex character class `[a-z0-9]` (codes 97-122 and 48-57). -/
def isAlnumLower (c : Char) : Bool :=
  (97 ≤ c.toNat && c.toNat ≤ 122) || (48 ≤ c.toNat && c.toNat ≤ 57)

/-- `slug.replace("c#", "csharp")`: left-to-right, non-overlapping. -/
def replaceCSharp : List Char → List Char
  | [] => []
  | [c] => [c]
  | c :: d :: rest =>
    if c == 'c' && d == '#' then
      'c' :: 's' :: 'h' :: 'a' :: 'r' :: 'p' :: replaceCSharp rest
    else c :: replaceCSharp (d :: rest)

/-- `slug.replace("c++", "cpp")`: left-to-right, non-overlapping. -/
def replaceCpp : List Char → List Char
  | [] => []
  | [c] => [c]
  | [c, d] => [c, d]
  | c :: d :: e :: rest =>
    if c == 'c' && d == '+' && e == '+' then
      'c' :: 'p' :: 'p' :: replaceCpp rest
    else c :: replaceCpp (d :: e :: rest)

/-- `re.sub(r"[^a-z0-9]+", "-", slug)`: each maximal run of characters
outside `[a-z0-9]` becomes one hyphen.  `inRun` records whether the previous
character was part of such a run. -/
def subNonAlnum (inRun : Bool) : List Char → List Char
  | [] => []
  | c :: rest =>
    if isAlnumLower c then c :: subNonAlnum false rest
    else if inRun then subNonAlnum true rest
    else '-' :: subNonAlnum true rest

/-- `re.sub(r"-+", "-", slug)`: each run of hyphens becomes one hyphen. -/
def collapseHyphens (prev : Bool) : List Char → List Char
  | [] => []
  | c :: rest =>
    if c == '-' then
      if prev then collapseHyphens true rest
      else '-' :: collapseHyphens true rest
    else c :: collapseHyphens false rest

/-- The left half of `slug.strip("-")`: drop leading hyphens. -/
def stripHyphensLeft (l : List Char) : List Char :=
  l.dropWhile (fun c => c == '-')

/-- The right half of `slug.strip("-")`: drop trailing hyphens. -/
def stripHyphensRight : List Char → List Char
  | [] => []
  | c :: rest =>
    match stripHyphensRight rest with
    | [] => if c == '-' then [] else [c]
    | r => c :: r

/-- The `normalize_slug` pipeline on the character list: lowercase, apply
both replacements, replace non-alnum runs by hyphens, strip boundary hyphens,
collapse hyphen runs — in the order of the Python source. -/
def normList (l : List Char) : List Char :=
  collapseHyphens false
    (stripHyphensRight
      (stripHyphensLeft
        (subNonAlnum false
          (replaceCpp (replaceCSharp (l.map lowerChar))))))

/-- `normalize_slug`. -/
def normalize_slug (topic : String) : String :=
  String.mk (normList topic.toList)

example : normalize_slug "Domain-Driven Design" = "domain-driven-design" := by decide

example : normalize_slug "C# async/await" = "csharp-async-await" := by decide

example : normalize_slug "React Hooks" = "react-hooks" := by decide

example : normalize_slug "  C++ --- tricks  " = "cpp-tricks" := by decide

/-- Characters that can occur in a normalized slug: `[a-z0-9]` or hyphen. -/
def goodChar (c : Char) : Bool :=
  isAlnumLower c || c == '-'

/-- No two adjacent hyphens. -/
def noTwoHyphens : List Char → Bool
  | [] => true
  | [_] => true
  | a :: b :: rest => !(a == '-' && b == '-') && noTwoHyphens (b :: rest)

/-- The first character, when present, is not a hyphen. -/
def headNotHyphen : List Char → Bool
  | [] => true
  | c :: _ => !(c == '-')

/-- The last character, when present, is not a hyphen. -/
def lastNotHyphen : List Char → Bool
  | [] => true
  | [c] => !(c == '-')
  | _ :: c :: rest => lastNotHyphen (c :: rest)

lemma alnum_ne_hyphen (c : Char) (h : isAlnumLower c = true) : (c == '-') = false := by
  cases hc : (c == '-') with
  | false => rfl
  | true =>
    have : c = '-' := eq_of_beq hc
    subst this
    exact absurd h (by decide)

lemma noTwoHyphens_tail {c : Char} {l : List Char}
    (h : noTwoHyphens (c :: l) = true) : noTwoHyphens l = true := by
  cases l with
  | nil => rfl
  | cons x xs =>
    simp only [noTwoHyphens, Bool.and_eq_true] at h
    exact h.2

lemma noTwoHyphens_cons_of_ne (c : Char) (l : List Char) (hc : (c == '-') = false)
    (h : noTwoHyphens l = true) : noTwoHyphens (c :: l) = true := by
  cases l with
  | nil => rfl
  | cons x xs => simp [noTwoHyphens, hc, h]

lemma noTwoHyphens_cons_of_head (c : Char) (l : List Char)
    (hh : headNotHyphen l = true) (h : noTwoHyphens l = true) :
    noTwoHyphens (c :: l) = true := by
  cases l with
  | nil => rfl
  | cons x xs =>
    have hx : (x == '-') = false := by
      simpa [headNotHyphen, Bool.not_eq_true'] using hh
    simp [noTwoHyphens, hx, h]

lemma noTwo_hyphen_head (rest : List Char)
    (h : noTwoHyphens ('-' :: rest) = true) : headNotHyphen rest = true := by
  cases rest with
  | nil => rfl
  | cons x xs =>
    simp only [noTwoHyphens, Bool.and_eq_true, Bool.not_eq_true'] at h
    have h1 := h.1
    simp only [headNotHyphen, Bool.not_eq_true']
    simpa using h1

lemma subNonAlnum_all (l : List Char) : ∀ b, (subNonAlnum b l).all goodChar = true := by
  induction l with
  | nil => intro b; rfl
  | cons c rest ih =>
    intro b
    by_cases hc : isAlnumLower c = true
    · simp [subNonAlnum, hc, goodChar, ih false]
    · simp only [subNonAlnum, hc, if_false, Bool.false_eq_true]
      cases b with
      | true => simpa using ih true
      | false => simp [goodChar, ih true]

lemma subNonAlnum_true_head (l : List Char) :
    headNotHyphen (subNonAlnum true l) = true := by
  induction l with
  | nil => rfl
  | cons c rest ih =>
    by_cases hc : isAlnumLower c = true
    · simp [subNonAlnum, hc, headNotHyphen, alnum_ne_hyphen c hc]
    · simpa [subNonAlnum, hc] using ih

lemma subNonAlnum_noTwo (l : List Char) : ∀ b, noTwoHyphens (subNonAlnum b l) = true := by
  induction l with
  | nil => intro b; rfl
  | cons c rest ih =>
    intro b
    by_cases hc : isAlnumLower c = true
    · simp only [subNonAlnum, hc, if_true]
      exact noTwoHyphens_cons_of_ne _ _ (alnum_ne_hyphen c hc) (ih false)
    · simp only [subNonAlnum, hc, if_false, Bool.false_eq_true]
      cases b with
      | true => simpa using ih true
      | false =>
        simp only [Bool.false_eq_true, if_false]
        exact noTwoHyphens_cons_of_head _ _ (subNonAlnum_true_head rest) (ih true)

lemma stripLeft_all (l : List Char) (h : l.all goodChar = true) :
    (stripHyphensLeft l).all goodChar = true := by
  induction l with
  | nil => exact h
  | cons c rest ih =>
    rw [List.all_cons, Bool.and_eq_true] at h
    by_cases hc : (c == '-') = true
    · simpa [stripHyphensLeft, List.dropWhile_cons, hc] using ih h.2
    · simp [stripHyphensLeft, List.dropWhile_cons, hc, h.1, h.2]

lemma stripLeft_noTwo (l : List Char) (h : noTwoHyphens l = true) :
    noTwoHyphens (stripHyphensLeft l) = true := by
  induction l with
  | nil => exact h
  | cons c rest ih =>
    by_cases hc : (c == '-') = true
    · simpa [stripHyphensLeft, List.dropWhile_cons, hc] using ih (noTwoHyphens_tail h)
    · simpa [stripHyphensLeft, List.dropWhile_cons, hc] using h

lemma stripLeft_head (l : List Char) : headNotHyphen (stripHyphensLeft l) = true := by
  induction l with
  | nil => rfl
  | cons c rest ih =>
    by_cases hc : (c == '-') = true
    · simpa [stripHyphensLeft, List.dropWhile_cons, hc] using ih
    · simp [stripHyphensLeft, List.dropWhile_cons, hc, headNotHyphen]

lemma stripLeft_id (l : List Char) (h : headNotHyphen l = true) :
    stripHyphensLeft l = l := by
  cases l with
  | nil => rfl
  | cons c rest =>
    have hc : (c == '-') = false := by
      simpa [headNotHyphen, Bool.not_eq_true'] using h
    simp [stripHyphensLeft, List.dropWhile_cons, hc]

lemma stripRight_cons_eq (c : Char) (rest : List Char) :
    stripHyphensRight (c :: rest) =
      match stripHyphensRight rest with
      | [] => if c == '-' then [] else [c]
      | r => c :: r := rfl

lemma stripRight_shape (c : Char) (rest : List Char) :
    stripHyphensRight (c :: rest) = [] ∨
      ∃ t, stripHyphensRight (c :: rest) = c :: t := by
  cases hsr : stripHyphensRight rest with
  | nil =>
    by_cases hc : (c == '-') = true
    · left; simp [stripHyphensRight, hsr, hc]
    · right; exact ⟨[], by simp [stripHyphensRight, hsr, hc]⟩
  | cons x xs =>
    right; exact ⟨x :: xs, by simp [stripHyphensRight, hsr]⟩

lemma stripRight_all (l : List Char) (h : l.all goodChar = true) :
    (stripHyphensRight l).all goodChar = true := by
  induction l with
  | nil => exact h
  | cons c rest ih =>
    rw [List.all_cons, Bool.and_eq_true] at h
    cases hsr : stripHyphensRight rest with
    | nil =>
      by_cases hc : (c == '-') = true
      · simp [stripHyphensRight, hsr, hc]
      · simp [stripHyphensRight, hsr, hc, h.1]
    | cons x xs =>
      have hall := ih h.2
      rw [hsr] at hall
      simp [stripHyphensRight, hsr, h.1, hall]

lemma stripRight_noTwo (l : List Char) (h : noTwoHyphens l = true) :
    noTwoHyphens (stripHyphensRight l) = true := by
  induction l with
  | nil => exact h
  | cons c rest ih =>
    have hnt := ih (noTwoHyphens_tail h)
    rw [stripRight_cons_eq]
    cases hsr : stripHyphensRight rest with
    | nil =>
      by_cases hc : (c == '-') = true
      · simp [hc, noTwoHyphens]
      · simp [hc, noTwoHyphens]
    | cons x xs =>
      rw [hsr] at hnt
      cases rest with
      | nil => simp [stripHyphensRight] at hsr
      | cons y ys =>
        rcases stripRight_shape y ys with hshape | ⟨t, hshape⟩
        · rw [hshape] at hsr; exact absurd hsr (by simp)
        · have hyx := hshape.symm.trans hsr
          injection hyx with h1 h2
          subst h1
          by_cases hc : (c == '-') = true
          · have hc' : c = '-' := eq_of_beq hc
            subst hc'
            have hhd : headNotHyphen (y :: ys) = true := noTwo_hyphen_head _ h
            have hy : (y == '-') = false := by
              simpa [headNotHyphen, Bool.not_eq_true'] using hhd
            simp [noTwoHyphens, hy, hnt]
          · have hc' : (c == '-') = false := by
              cases hcc : (c == '-') with
              | false => rfl
              | true => exact absurd hcc hc
            exact noTwoHyphens_cons_of_ne _ _ hc' hnt

lemma stripRight_head (l : List Char) (h : headNotHyphen l = true) :
    headNotHyphen (stripHyphensRight l) = true := by
  cases l with
  | nil => rfl
  | cons c rest =>
    rcases stripRight_shape c rest with hshape | ⟨t, hshape⟩
    · simp [hshape, headNotHyphen]
    · rw [hshape]
      simpa [headNotHyphen] using h

lemma stripRight_last (l : List Char) : lastNotHyphen (stripHyphensRight l) = true := by
  induction l with
  | nil => rfl
  | cons c rest ih =>
    cases hsr : stripHyphensRight rest with
    | nil =>
      by_cases hc : (c == '-') = true
      · simp [stripHyphensRight, hsr, hc, lastNotHyphen]
      · simp only [stripHyphensRight, hsr, hc, Bool.false_eq_true, if_false]
        simpa [lastNotHyphen, Bool.not_eq_true'] using hc
    | cons x xs =>
      have hl := ih
      rw [hsr] at hl
      simp only [stripHyphensRight, hsr]
      simpa [lastNotHyphen] using hl

lemma stripRight_id (l : List Char) (h : lastNotHyphen l = true) :
    stripHyphensRight l = l := by
  induction l with
  | nil => rfl
  | cons c rest ih =>
    cases rest with
    | nil =>
      have hc : (c == '-') = false := by
        simpa [lastNotHyphen, Bool.not_eq_true'] using h
      simp [stripHyphensRight, hc]
    | cons x xs =>
      have hlast : lastNotHyphen (x :: xs) = true := by
        simpa [lastNotHyphen] using h
      have hr : stripHyphensRight (x :: xs) = x :: xs := ih hlast
      rw [stripRight_cons_eq, hr]

lemma collapse_id_aux (l : List Char) (h : noTwoHyphens l = true) :
    collapseHyphens false l = l ∧
      (headNotHyphen l = true → collapseHyphens true l = l) := by
  induction l with
  | nil => exact ⟨rfl, fun _ => rfl⟩
  | cons c rest ih =>
    obtain ⟨ihF, ihT⟩ := ih (noTwoHyphens_tail h)
    constructor
    · by_cases hc : (c == '-') = true
      · have hc' : c = '-' := eq_of_beq hc
        subst hc'
        have hhead : headNotHyphen rest = true := noTwo_hyphen_head rest h
        simp [collapseHyphens, ihT hhead]
      · simp [collapseHyphens, hc, ihF]
    · intro hh
      have hc : (c == '-') = false := by
        simpa [headNotHyphen, Bool.not_eq_true'] using hh
      simp [collapseHyphens, hc, ihF]

lemma collapse_id (l : List Char) (h : noTwoHyphens l = true) :
    collapseHyphens false l = l :=
  (collapse_id_aux l h).1

lemma good_not_alnum_hyphen (c : Char) (hg : goodChar c = true)
    (hA : isAlnumLower c = false) : c = '-' := by
  simp only [goodChar, hA, Bool.false_or] at hg
  exact eq_of_beq hg

lemma subNonAlnum_id_aux (l : List Char) (hall : l.all goodChar = true)
    (hnt : noTwoHyphens l = true) :
    subNonAlnum false l = l ∧
      (headNotHyphen l = true → subNonAlnum true l = l) := by
  induction l with
  | nil => exact ⟨rfl, fun _ => rfl⟩
  | cons c rest ih =>
    rw [List.all_cons, Bool.and_eq_true] at hall
    obtain ⟨ihF, ihT⟩ := ih hall.2 (noTwoHyphens_tail hnt)
    constructor
    · by_cases hA : isAlnumLower c = true
      · simp [subNonAlnum, hA, ihF]
      · have hc' : c = '-' := good_not_alnum_hyphen c hall.1 (by
          cases hAA : isAlnumLower c with
          | false => rfl
          | true => exact absurd hAA hA)
        subst hc'
        have hhead : headNotHyphen rest = true := noTwo_hyphen_head rest hnt
        simp [subNonAlnum, hA, ihT hhead]
    · intro hh
      have hc : (c == '-') = false := by
        simpa [headNotHyphen, Bool.not_eq_true'] using hh
      have hA : isAlnumLower c = true := by
        have hg := hall.1
        simp only [goodChar, hc, Bool.or_false] at hg
        exact hg
      simp [subNonAlnum, hA, ihF]

lemma lowerChar_good (c : Char) (h : goodChar c = true) : lowerChar c = c := by
  simp only [goodChar, isAlnumLower, Bool.or_eq_true, Bool.and_eq_true,
    decide_eq_true_eq, beq_iff_eq] at h
  unfold lowerChar
  rcases h with (⟨h1, h2⟩ | ⟨h1, h2⟩) | rfl
  · have hcond : ¬((65 ≤ c.toNat && c.toNat ≤ 90) = true) := by
      simp only [Bool.and_eq_true, decide_eq_true_eq, not_and]
      omega
    simp [hcond]
  · have hcond : ¬((65 ≤ c.toNat && c.toNat ≤ 90) = true) := by
      simp only [Bool.and_eq_true, decide_eq_true_eq, not_and]
      omega
    simp [hcond]
  · decide

lemma lower_map_id (l : List Char) (h : l.all goodChar = true) :
    l.map lowerChar = l := by
  induction l with
  | nil => rfl
  | cons c rest ih =>
    rw [List.all_cons, Bool.and_eq_true] at h
    simp [lowerChar_good c h.1, ih h.2]

lemma good_mem (l : List Char) (h : l.all goodChar = true) {c : Char} (hm : c ∈ l) :
    goodChar c = true :=
  List.all_eq_true.mp h c hm

lemma replaceCSharp_id (l : List Char) : '#' ∉ l → replaceCSharp l = l := by
  induction l using replaceCSharp.induct with
  | case1 => intro _; rfl
  | case2 c => intro _; rfl
  | case3 c d rest hcd ih =>
    intro hmem
    exfalso
    rw [Bool.and_eq_true] at hcd
    have hd : d = '#' := eq_of_beq hcd.2
    exact hmem (by simp [hd])
  | case4 c d rest hcd ih =>
    intro hmem
    have hrest : '#' ∉ d :: rest := fun hm => hmem (List.mem_cons_of_mem c hm)
    simp only [replaceCSharp, hcd, Bool.false_eq_true, if_false]
    rw [ih hrest]

lemma replaceCpp_id (l : List Char) : '+' ∉ l → replaceCpp l = l := by
  induction l using replaceCpp.induct with
  | case1 => intro _; rfl
  | case2 c => intro _; rfl
  | case3 c d => intro _; rfl
  | case4 c d e rest hcd ih =>
    intro hmem
    exfalso
    rw [Bool.and_eq_true, Bool.and_eq_true] at hcd
    have hd : e = '+' := eq_of_beq hcd.2
    exact hmem (by simp [hd])
  | case5 c d e rest hcd ih =>
    intro hmem
    have hrest : '+' ∉ d :: e :: rest := fun hm => hmem (List.mem_cons_of_mem c hm)
    simp only [replaceCpp, hcd, Bool.false_eq_true, if_false]
    rw [ih hrest]

lemma good_no_hash (l : List Char) (h : l.all goodChar = true) : '#' ∉ l := by
  intro hm
  exact absurd (good_mem l h hm) (by decide)

lemma good_no_plus (l : List Char) (h : l.all goodChar = true) : '+' ∉ l := by
  intro hm
  exact absurd (good_mem l h hm) (by decide)

lemma normList_normal (l : List Char) :
    (normList l).all goodChar = true ∧
      noTwoHyphens (normList l) = true ∧
      headNotHyphen (normList l) = true ∧
      lastNotHyphen (normList l) = true := by
  have h2all : (subNonAlnum false (replaceCpp (replaceCSharp (l.map lowerChar)))).all
      goodChar = true := subNonAlnum_all _ false
  have h2nt : noTwoHyphens (subNonAlnum false (replaceCpp (replaceCSharp (l.map lowerChar)))) =
      true := subNonAlnum_noTwo _ false
  have h3all := stripRight_all
    (stripHyphensLeft (subNonAlnum false (replaceCpp (replaceCSharp (l.map lowerChar)))))
    (stripLeft_all _ h2all)
  have h3nt := stripRight_noTwo
    (stripHyphensLeft (subNonAlnum false (replaceCpp (replaceCSharp (l.map lowerChar)))))
    (stripLeft_noTwo _ h2nt)
  have h3head := stripRight_head
    (stripHyphensLeft (subNonAlnum false (replaceCpp (replaceCSharp (l.map lowerChar)))))
    (stripLeft_head (subNonAlnum false (replaceCpp (replaceCSharp (l.map lowerChar)))))
  have h3last := stripRight_last
    (stripHyphensLeft (subNonAlnum false (replaceCpp (replaceCSharp (l.map lowerChar)))))
  unfold normList
  rw [collapse_id _ h3nt]
  exact ⟨h3all, h3nt, h3head, h3last⟩

lemma normList_id (l : List Char) (h1 : l.all goodChar = true)
    (h2 : noTwoHyphens l = true) (h3 : headNotHyphen l = true)
    (h4 : lastNotHyphen l = true) : normList l = l := by
  unfold normList
  rw [lower_map_id l h1, replaceCSharp_id l (good_no_hash l h1),
    replaceCpp_id l (good_no_plus l h1), (subNonAlnum_id_aux l h1 h2).1,
    stripLeft_id l h3, stripRight_id l h4, collapse_id l h2]

/-- Claim C6: slug normalization is idempotent — for every string `x`,
`normalize_slug (normalize_slug x) = normalize_slug x`. -/
theorem normalize_slug_idempotent (x : String) :
    normalize_slug (normalize_slug x) = normalize_slug x := by
  unfold normalize_slug
  have hts : (String.mk (normList x.toList)).toList = normList x.toList := rfl
  rw [hts]
  obtain ⟨h1, h2, h3, h4⟩ := normList_normal x.toList
  rw [normList_id _ h1 h2 h3 h4]

/-! ## ADR numbering
    (plugins/doc/skills/managing-adrs/scripts/adr_create.py, lines 129-185)

Filenames are modelled as `List Char`.  `adr_dir.glob('*.md')` keeps the
filenames with suffix ".md"; the regexes `^(?:ADR-)?(\d+)-.*\.md$` (with
`re.IGNORECASE`), `^ADR-(\d+)-` (ignorecase) and `^(\d+)-` are modelled as
the equivalent prefix/suffix parsers (none of them can backtrack into a
different successful match on any input, since a name starting with the
`ADR-` prefix cannot also start with a digit). -/

/-- The regex class `\d` (ASCII digits, codes 48-57). -/
def isDigitChar (c : Char) : Bool :=
  48 ≤ c.toNat && c.toNat ≤ 57

/-- The decimal digit characters used by Python's `d` format spec. -/
def digitChar : Nat → Char
  | 0 => '0'
  | 1 => '1'
  | 2 => '2'
  | 3 => '3'
  | 4 => '4'
  | 5 => '5'
  | 6 => '6'
  | 7 => '7'
  | 8 => '8'
  | 9 => '9'
  | _ => '?'

/-- Decimal digits of `n`, most significant first, with explicit fuel. -/
def natDigitsAux (fuel : Nat) (n : Nat) : List Char :=
  match fuel with
  | 0 => []
  | fuel + 1 =>
    if n < 10 then [digitChar n]
    else natDigitsAux fuel (n / 10) ++ [digitChar (n % 10)]

/-- Decimal digits of `n`, most significant first (as in `str(n)`). -/
def natDigits (n : Nat) : List Char :=
  natDigitsAux (n + 1) n

/-- `int(group)` on a digit string. -/
def digitsToNat (ds : List Char) : Nat :=
  ds.foldl (fun acc c => 10 * acc + (c.toNat - 48)) 0

/-- Case-insensitive test for the literal regex prefix `ADR-`. -/
def startsWithAdrCI : List Char → Bool
  | a :: d :: r :: h :: _ =>
    lowerChar a == 'a' && lowerChar d == 'd' && lowerChar r == 'r' && h == '-'
  | _ => false

/-- The glob pattern `*.md` (case-sensitive suffix ".md"). -/
def endsWithMd (l : List Char) : Bool :=
  match l.reverse with
  | d :: m :: dot :: _ => d == 'd' && m == 'm' && dot == '.'
  | _ => false

/-- The regex suffix `\.md$` under `re.IGNORECASE`. -/
def endsWithMdCI (l : List Char) : Bool :=
  match l.reverse with
  | d :: m :: dot :: _ => lowerChar d == 'd' && lowerChar m == 'm' && dot == '.'
  | _ => false

/-- One filename against `^(?:ADR-)?(\d+)-.*\.md$` (ignorecase): the parsed
number when the name matches. -/
def adrNumber (name : List Char) : Option Nat :=
  let core := if startsWithAdrCI name then name.drop 4 else name
  let ds := core.takeWhile isDigitChar
  if ds.isEmpty then none
  else
    match core.drop ds.length with
    | '-' :: rest => if endsWithMdCI rest then some (digitsToNat ds) else none
    | _ => none

/-- `get_next_adr_number`: max over the numbers of the matching '.md'
filenames, plus one (`max_number` starts at 0). -/
def get_next_adr_number (files : List (List Char)) : Nat :=
  ((files.filter endsWithMd).filterMap adrNumber).foldl Nat.max 0 + 1

/-- One filename against `^ADR-(\d+)-` (ignorecase): the digit-group length
(the detected padding) when the name matches. -/
def parseAdrStyle1 (name : List Char) : Option Nat :=
  if startsWithAdrCI name then
    let core := name.drop 4
    let ds := core.takeWhile isDigitChar
    if ds.isEmpty then none
    else
      match core.drop ds.length with
      | '-' :: _ => some ds.length
      | _ => none
  else none

/-- One filename against `^(\d+)-`: the digit-group length when it matches. -/
def parsePlainStyle (name : List Char) : Option Nat :=
  let ds := name.takeWhile isDigitChar
  if ds.isEmpty then none
  else
    match name.drop ds.length with
    | '-' :: _ => some ds.length
    | _ => none

/-- `filepath.name.lower() in ['readme.md', 'template.md']`. -/
def isSkippedName (name : List Char) : Bool :=
  name.map lowerChar == "readme.md".toList ||
    name.map lowerChar == "template.md".toList

/-- The file loop of `detect_numbering_style`: skip README/template, try the
`ADR-` pattern then the plain pattern, return on the first match; default
`(4, False)`. -/
def detectLoop : List (List Char) → Nat × Bool
  | [] => (4, false)
  | name :: rest =>
    if isSkippedName name then detectLoop rest
    else
      match parseAdrStyle1 name with
      | some k => (k, true)
      | none =>
        match parsePlainStyle name with
        | some k => (k, false)
        | none => detectLoop rest

/-- `detect_numbering_style` over the '.md' files of the directory. -/
def detect_numbering_style (files : List (List Char)) : Nat × Bool :=
  detectLoop (files.filter endsWithMd)

/-- `f"{number:0{padding}d}"`: decimal digits left-padded with '0'. -/
def padNum (n p : Nat) : List Char :=
  List.replicate (p - (natDigits n).length) '0' ++ natDigits n

/-- The kebab-case slug built by `generate_filename`: lowercase, delete
characters outside `[a-z0-9\s-]`, replace whitespace runs with one hyphen,
collapse hyphen runs, strip boundary hyphens. -/
def pySpace (c : Char) : Bool :=
  c == ' ' || c == '\t' || c == '\n' || c == '\r' || c.toNat == 11 || c.toNat == 12

/-- The regex class `[a-z0-9\s-]` kept by `re.sub(r'[^a-z0-9\s-]', '', ...)`. -/
def keepSlugChar (c : Char) : Bool :=
  isAlnumLower c || pySpace c || c == '-'

/-- `re.sub(r'\s+', '-', slug)`: each maximal whitespace run becomes one
hyphen. -/
def subSpaceRuns (inRun : Bool) : List Char → List Char
  | [] => []
  | c :: rest =>
    if pySpace c then
      if inRun then subSpaceRuns true rest else '-' :: subSpaceRuns true rest
    else c :: subSpaceRuns false rest

/-- The slug pipeline of `generate_filename`. -/
def titleSlug (title : List Char) : List Char :=
  stripHyphensRight
    (stripHyphensLeft
      (collapseHyphens false
        (subSpaceRuns false ((title.map lowerChar).filter keepSlugChar))))

/-- `generate_filename(number, title, padding, with_prefix)`. -/
def generate_filename (number : Nat) (title : List Char) (padding : Nat)
    (withPfx : Bool) : List Char :=
  (if withPfx then ['A', 'D', 'R', '-'] else []) ++
    padNum number padding ++ '-' :: (titleSlug title ++ ['.', 'm', 'd'])

example : get_next_adr_number
    ["0003-use-postgres.md".toList, "ADR-0010-retry.md".toList, "notes.txt".toList,
     "README.md".toList] = 11 := by decide

example : detect_numbering_style ["README.md".toList, "ADR-007-x.md".toList] =
    (3, true) := by decide

example : String.mk (generate_filename 5 "Use PostgreSQL!".toList 4 false) =
    "0005-use-postgresql.md" := by decide

lemma foldl_max_init_le (l : List Nat) : ∀ a, a ≤ l.foldl Nat.max a := by
  induction l with
  | nil => intro a; exact le_rfl
  | cons x xs ih =>
    intro a
    exact le_trans (Nat.le_max_left a x) (ih (Nat.max a x))

lemma foldl_max_mem_le (l : List Nat) : ∀ a n, n ∈ l → n ≤ l.foldl Nat.max a := by
  induction l with
  | nil => intro a n h; exact absurd h (List.not_mem_nil n)
  | cons x xs ih =>
    intro a n h
    rcases List.mem_cons.mp h with rfl | hmem
    · exact le_trans (Nat.le_max_right a n) (foldl_max_init_le xs (Nat.max a n))
    · exact ih (Nat.max a x) n hmem

lemma foldl_max_eq_init_or_mem (l : List Nat) :
    ∀ a, l.foldl Nat.max a = a ∨ l.foldl Nat.max a ∈ l := by
  induction l with
  | nil => intro a; exact Or.inl rfl
  | cons x xs ih =>
    intro a
    rcases ih (Nat.max a x) with heq | hmem
    · rcases Nat.le_total a x with hax | hxa
      · right
        have hmx : Nat.max a x = x := Nat.max_eq_right hax
        rw [List.foldl_cons, heq, hmx]
        exact List.mem_cons_self x xs
      · left
        have hmx : Nat.max a x = a := Nat.max_eq_left hxa
        rw [List.foldl_cons, heq, hmx]
    · right
      exact List.mem_cons_of_mem x hmem

/-- Claim C7: `get_next_adr_number` returns `max(existing) + 1`, where
`existing` are the numbers parsed from the '.md' filenames matching the
numbered-ADR pattern (digits then a hyphen, optional case-insensitive `ADR-`
prefix, `.md` suffix), and returns 1 when no filename matches. -/
theorem get_next_adr_number_spec (files : List (List Char)) :
    ((files.filter endsWithMd).filterMap adrNumber = [] →
      get_next_adr_number files = 1) ∧
    (∀ n ∈ (files.filter endsWithMd).filterMap adrNumber,
      n < get_next_adr_number files) ∧
    ((files.filter endsWithMd).filterMap adrNumber ≠ [] →
      ∃ n ∈ (files.filter endsWithMd).filterMap adrNumber,
        get_next_adr_number files = n + 1) := by
  refine ⟨?_, ?_, ?_⟩
  · intro h
    simp [get_next_adr_number, h]
  · intro n hn
    have := foldl_max_mem_le ((files.filter endsWithMd).filterMap adrNumber) 0 n hn
    unfold get_next_adr_number
    omega
  · intro hne
    rcases foldl_max_eq_init_or_mem ((files.filter endsWithMd).filterMap adrNumber) 0 with
      heq | hmem
    · rcases List.exists_mem_of_ne_nil _ hne with ⟨n, hn⟩
      refine ⟨((files.filter endsWithMd).filterMap adrNumber).foldl Nat.max 0, ?_, rfl⟩
      have hle := foldl_max_mem_le ((files.filter endsWithMd).filterMap adrNumber) 0 n hn
      rw [heq] at hle ⊢
      have : n = 0 := Nat.le_zero.mp hle
      subst this
      exact hn
    · exact ⟨_, hmem, rfl⟩

/-- Witness for C7: a directory with `0003-use-postgres.md`,
`ADR-0010-retry.md` and a non-matching `notes.txt` yields 11 = 10 + 1, and
10 is a parsed number. -/
theorem get_next_adr_number_spec_witness :
    get_next_adr_number
      ["0003-use-postgres.md".toList, "ADR-0010-retry.md".toList,
       "notes.txt".toList] = 11 ∧
    (10 : Nat) ∈ (["0003-use-postgres.md".toList, "ADR-0010-retry.md".toList,
       "notes.txt".toList].filter endsWithMd).filterMap adrNumber := by
  have h := (get_next_adr_number_spec
    ["0003-use-postgres.md".toList, "ADR-0010-retry.md".toList,
     "notes.txt".toList]).2.2 (by decide)
  refine ⟨?_, by decide⟩
  rcases h with ⟨n, hn, heq⟩
  rw [heq]
  have : n = 10 := by
    have hnums : (["0003-use-postgres.md".toList, "ADR-0010-retry.md".toList,
        "notes.txt".toList].filter endsWithMd).filterMap adrNumber = [3, 10] := by decide
    rw [hnums] at hn
    have h10 : n ≤ 10 := by
      rcases List.mem_cons.mp hn with rfl | h2
      · omega
      · simp at h2
        omega
    rcases List.mem_cons.mp hn with rfl | h2
    · exfalso
      have := (get_next_adr_number_spec
        ["0003-use-postgres.md".toList, "ADR-0010-retry.md".toList,
         "notes.txt".toList]).2.1 10 (by decide)
      omega
    · simpa using h2
  omega

lemma digitChar_isDigit (d : Nat) (h : d < 10) : isDigitChar (digitChar d) = true := by
  interval_cases d <;> decide

lemma natDigitsAux_all (fuel : Nat) : ∀ n, (natDigitsAux fuel n).all isDigitChar = true := by
  induction fuel with
  | zero => intro n; rfl
  | succ fuel ih =>
    intro n
    by_cases h10 : n < 10
    · simp [natDigitsAux, h10, digitChar_isDigit n h10]
    · have hm : n % 10 < 10 := Nat.mod_lt n (by omega)
      simp [natDigitsAux, h10, List.all_append, ih (n / 10), digitChar_isDigit _ hm]

lemma natDigits_all (n : Nat) : (natDigits n).all isDigitChar = true :=
  natDigitsAux_all (n + 1) n

lemma natDigitsAux_ne_nil (fuel n : Nat) (hf : 1 ≤ fuel) : natDigitsAux fuel n ≠ [] := by
  match fuel, hf with
  | fuel + 1, _ =>
    by_cases h10 : n < 10
    · simp [natDigitsAux, h10]
    · simp [natDigitsAux, h10]

lemma natDigits_ne_nil (n : Nat) : natDigits n ≠ [] :=
  natDigitsAux_ne_nil (n + 1) n (by omega)

lemma natDigitsAux_length_le (fuel : Nat) :
    ∀ n k, 1 ≤ k → n < 10 ^ k → (natDigitsAux fuel n).length ≤ k := by
  induction fuel with
  | zero => intro n k hk _; simp [natDigitsAux]
  | succ fuel ih =>
    intro n k hk hn
    by_cases h10 : n < 10
    · simp [natDigitsAux, h10]
      omega
    · rcases k with _ | k
      · omega
      · have hk1 : 1 ≤ k := by
          rcases Nat.eq_zero_or_pos k with rfl | hpos
          · simp at hn; omega
          · exact hpos
        have hdiv : n / 10 < 10 ^ k := by
          rw [pow_succ] at hn
          exact Nat.div_lt_of_lt_mul (by omega)
        have := ih (n / 10) k hk1 hdiv
        simp [natDigitsAux, h10, List.length_append]
        omega

lemma natDigits_length_le (n k : Nat) (hk : 1 ≤ k) (hn : n < 10 ^ k) :
    (natDigits n).length ≤ k :=
  natDigitsAux_length_le (n + 1) n k hk hn

lemma padNum_length (n p : Nat) (h : (natDigits n).length ≤ p) :
    (padNum n p).length = p := by
  simp [padNum, List.length_append, List.length_replicate]
  omega

lemma padNum_all (n p : Nat) : (padNum n p).all isDigitChar = true := by
  rw [padNum, List.all_append, Bool.and_eq_true]
  constructor
  · rw [List.all_eq_true]
    intro c hc
    rw [List.eq_of_mem_replicate hc]
    decide
  · exact natDigits_all n

lemma padNum_ne_nil (n p : Nat) : padNum n p ≠ [] := by
  rw [padNum]
  intro h
  rcases List.append_eq_nil.mp h with ⟨_, h2⟩
  exact natDigits_ne_nil n h2

lemma takeWhile_append_stop (q : Char → Bool) (l1 : List Char) (c : Char) (l2 : List Char)
    (h1 : l1.all q = true) (hc : q c = false) :
    (l1 ++ c :: l2).takeWhile q = l1 := by
  induction l1 with
  | nil => simp [List.takeWhile_cons, hc]
  | cons a as ih =>
    rw [List.all_cons, Bool.and_eq_true] at h1
    simp [List.takeWhile_cons, h1.1, ih h1.2]

lemma digit_lower_id (c : Char) (h : isDigitChar c = true) : lowerChar c = c := by
  simp only [isDigitChar, Bool.and_eq_true, decide_eq_true_eq] at h
  unfold lowerChar
  rw [if_neg]
  simp only [Bool.and_eq_true, decide_eq_true_eq, not_and]
  omega

lemma digit_beq_false (c a : Char) (hd : isDigitChar c = true)
    (ha : isDigitChar a = false) : (c == a) = false := by
  cases h : (c == a) with
  | false => rfl
  | true =>
    have := eq_of_beq h
    subst this
    rw [hd] at ha
    exact absurd ha (by simp)

lemma endsWithMd_append (l : List Char) : endsWithMd (l ++ ['.', 'm', 'd']) = true := by
  simp [endsWithMd, List.reverse_append]

lemma endsWithMdCI_append (l : List Char) : endsWithMdCI (l ++ ['.', 'm', 'd']) = true := by
  simp [endsWithMdCI, List.reverse_append]
  decide

lemma startsWithAdrCI_cons_false (c : Char) (rest : List Char)
    (hc : (lowerChar c == 'a') = false) : startsWithAdrCI (c :: rest) = false := by
  match rest with
  | [] => rfl
  | [_] => rfl
  | [_, _] => rfl
  | d :: r :: h :: t => simp [startsWithAdrCI, hc]

lemma isSkippedName_adr (rest : List Char) : isSkippedName ('A' :: rest) = false := by
  rw [isSkippedName, Bool.or_eq_false_iff]
  constructor
  · apply beq_eq_false_iff_ne.mpr
    intro h
    have h2 : lowerChar 'A' :: rest.map lowerChar =
        'r' :: 'e' :: 'a' :: 'd' :: 'm' :: 'e' :: '.' :: 'm' :: 'd' :: [] := h
    injection h2 with h3 _
    exact absurd h3 (by decide)
  · apply beq_eq_false_iff_ne.mpr
    intro h
    have h2 : lowerChar 'A' :: rest.map lowerChar =
        't' :: 'e' :: 'm' :: 'p' :: 'l' :: 'a' :: 't' :: 'e' :: '.' :: 'm' :: 'd' :: [] := h
    injection h2 with h3 _
    exact absurd h3 (by decide)

lemma isSkippedName_digit (c : Char) (t : List Char) (hd : isDigitChar c = true) :
    isSkippedName (c :: t) = false := by
  rw [isSkippedName, Bool.or_eq_false_iff]
  constructor
  · apply beq_eq_false_iff_ne.mpr
    intro h
    have h2 : lowerChar c :: t.map lowerChar =
        'r' :: 'e' :: 'a' :: 'd' :: 'm' :: 'e' :: '.' :: 'm' :: 'd' :: [] := h
    rw [digit_lower_id c hd] at h2
    injection h2 with h3 _
    subst h3
    exact absurd hd (by decide)
  · apply beq_eq_false_iff_ne.mpr
    intro h
    have h2 : lowerChar c :: t.map lowerChar =
        't' :: 'e' :: 'm' :: 'p' :: 'l' :: 'a' :: 't' :: 'e' :: '.' :: 'm' :: 'd' :: [] := h
    rw [digit_lower_id c hd] at h2
    injection h2 with h3 _
    subst h3
    exact absurd hd (by decide)

/-- Counterexample to claim C8 as stated: with number 100 and padding width 2
the generated filename is `100-x.md`, whose digit group has length 3, so
`detect_numbering_style` returns padding 3, not the original 2. -/
theorem generate_detect_roundtrip_counterexample :
    detect_numbering_style [generate_filename 100 ['x'] 2 false] = (3, false) ∧
    detect_numbering_style [generate_filename 100 ['x'] 2 false] ≠ (2, false) := by
  constructor <;> decide

/-- Claim C8 (amended): the round-trip holds whenever the padding width is at
least 1 and the number fits in it (`n < 10 ^ p`, i.e. `str(n)` has at most
`p` digits): `detect_numbering_style` on a directory whose only '.md' file is
`generate_filename(n, title, p, b)` returns exactly `(p, b)`. -/
theorem generate_detect_roundtrip (n p : Nat) (title : List Char) (b : Bool)
    (hp : 1 ≤ p) (hn : n < 10 ^ p) :
    detect_numbering_style [generate_filename n title p b] = (p, b) := by
  have hlen : (padNum n p).length = p := padNum_length n p (natDigits_length_le n p hp hn)
  have hall : (padNum n p).all isDigitChar = true := padNum_all n p
  obtain ⟨c, t, hpn⟩ : ∃ c t, padNum n p = c :: t := by
    cases hx : padNum n p with
    | nil => exact absurd hx (padNum_ne_nil n p)
    | cons c t => exact ⟨c, t, rfl⟩
  have hcdig : isDigitChar c = true := by
    have h2 := hall
    rw [hpn, List.all_cons, Bool.and_eq_true] at h2
    exact h2.1
  have hgen : generate_filename n title p b =
      ((if b then ['A', 'D', 'R', '-'] else []) ++ padNum n p ++ '-' :: titleSlug title)
        ++ ['.', 'm', 'd'] := by
    cases b <;> simp [generate_filename]
  have hmd : endsWithMd (generate_filename n title p b) = true := by
    rw [hgen]; exact endsWithMd_append _
  have hmdci : endsWithMdCI (titleSlug title ++ ['.', 'm', 'd']) = true :=
    endsWithMdCI_append _
  have hie : (padNum n p).isEmpty = false := by rw [hpn]; rfl
  have htake : (padNum n p ++ '-' :: (titleSlug title ++ ['.', 'm', 'd'])).takeWhile
      isDigitChar = padNum n p :=
    takeWhile_append_stop _ _ _ _ hall (by decide)
  have hdrop2 : (padNum n p ++ '-' :: (titleSlug title ++ ['.', 'm', 'd'])).drop p =
      '-' :: (titleSlug title ++ ['.', 'm', 'd']) := by
    have h0 := List.drop_left (padNum n p) ('-' :: (titleSlug title ++ ['.', 'm', 'd']))
    rw [hlen] at h0
    exact h0
  cases b with
  | true =>
    have hname : generate_filename n title p true =
        'A' :: 'D' :: 'R' :: '-' ::
          (padNum n p ++ '-' :: (titleSlug title ++ ['.', 'm', 'd'])) := by
      simp [generate_filename]
    have hstart : startsWithAdrCI ('A' :: 'D' :: 'R' :: '-' ::
        (padNum n p ++ '-' :: (titleSlug title ++ ['.', 'm', 'd']))) = true := rfl
    have hparse : parseAdrStyle1 (generate_filename n title p true) = some p := by
      rw [hname]
      simp only [parseAdrStyle1, hstart, if_true, List.drop_succ_cons, List.drop_zero,
        htake, hie, Bool.false_eq_true, if_false, hdrop2, hmdci, hlen]
    have hskip : isSkippedName (generate_filename n title p true) = false := by
      rw [hname]; exact isSkippedName_adr _
    simp only [detect_numbering_style, List.filter_cons, hmd, if_true, List.filter_nil,
      detectLoop, hskip, Bool.false_eq_true, if_false, hparse]
  | false =>
    have hname : generate_filename n title p false =
        padNum n p ++ '-' :: (titleSlug title ++ ['.', 'm', 'd']) := by
      simp [generate_filename]
    have hnamec : generate_filename n title p false =
        c :: (t ++ '-' :: (titleSlug title ++ ['.', 'm', 'd'])) := by
      rw [hname, hpn]; simp
    have hskip : isSkippedName (generate_filename n title p false) = false := by
      rw [hnamec]; exact isSkippedName_digit c _ hcdig
    have hstart : startsWithAdrCI (generate_filename n title p false) = false := by
      rw [hnamec]
      apply startsWithAdrCI_cons_false
      rw [digit_lower_id c hcdig]
      exact digit_beq_false c 'a' hcdig (by decide)
    have hparse1 : parseAdrStyle1 (generate_filename n title p false) = none := by
      simp [parseAdrStyle1, hstart]
    have hparse2 : parsePlainStyle (generate_filename n title p false) = some p := by
      rw [hname]
      simp only [parsePlainStyle, htake, hie, Bool.false_eq_true, if_false, hdrop2, hlen]
    simp only [detect_numbering_style, List.filter_cons, hmd, if_true, List.filter_nil,
      detectLoop, hskip, Bool.false_eq_true, if_false, hparse1, hparse2]

/-- Witness for the amended C8: number 5, padding 4, prefixed — the generated
`ADR-0005-x.md` is detected as `(4, true)`. -/
theorem generate_detect_roundtrip_witness :
    detect_numbering_style [generate_filename 5 ['x'] 4 true] = (4, true) :=
  generate_detect_roundtrip 5 4 ['x'] true (by decide) (by decide)

/-! ## Skill frontmatter validation -/

/-- The two frontmatter fields the validator requires; `none` = absent. -/
structure SkillFrontmatter where
  name : Option String
  description : Option String

/-- Modelled from the spec: the skill validator script itself is not among
the sources under `src/` (only the skills it would validate are).  Per the
specification it "flags a SKILL.md missing `name` or `description` as
CRITICAL and continues no further checks when `name` is absent".  Findings
are (severity, message) pairs; `furtherChecks` stands for the findings of
every check performed after these frontmatter presence checks. -/
def validateSkillMd (fm : SkillFrontmatter) (furtherChecks : List (String × String)) :
    List (String × String) :=
  match fm.name with
  | none => [("CRITICAL", "missing name")]
  | some _ =>
    match fm.description with
    | none => ("CRITICAL", "missing description") :: furtherChecks
    | some _ => furtherChecks

/-- Claim C9: a SKILL.md whose frontmatter misses `name` or `description` is
flagged CRITICAL, and when `name` is absent no further checks run (the
findings are exactly the one CRITICAL finding, whatever the other checks
would have produced). -/
theorem validateSkillMd_critical (fm : SkillFrontmatter)
    (furtherChecks : List (String × String)) :
    (fm.name = none →
      validateSkillMd fm furtherChecks = [("CRITICAL", "missing name")]) ∧
    (fm.name = none → ∀ other,
      validateSkillMd fm furtherChecks = validateSkillMd fm other) ∧
    (fm.name ≠ none → fm.description = none →
      ("CRITICAL", "missing description") ∈ validateSkillMd fm furtherChecks) := by
  refine ⟨?_, ?_, ?_⟩
  · intro h
    simp [validateSkillMd, h]
  · intro h other
    simp [validateSkillMd, h]
  · intro hname hdesc
    cases hn : fm.name with
    | none => exact absurd hn hname
    | some v => simp [validateSkillMd, hn, hdesc]

/-- Witness for C9: a frontmatter with no `name` yields exactly the CRITICAL
finding even when further checks would have produced findings, and a
frontmatter with a `name` but no `description` contains the CRITICAL
description finding. -/
theorem validateSkillMd_critical_witness :
    validateSkillMd ⟨none, some "d"⟩ [("INFO", "x")] = [("CRITICAL", "missing name")] ∧
    ("CRITICAL", "missing description") ∈ validateSkillMd ⟨some "n", none⟩ [("INFO", "x")] := by
  constructor
  · exact (validateSkillMd_critical ⟨none, some "d"⟩ [("INFO", "x")]).1 rfl
  · exact (validateSkillMd_critical ⟨some "n", none⟩ [("INFO", "x")]).2.2 (by simp) rfl

/-! ## Cache `get` command
    (plugins/core/skills/deep-research/scripts/cache_manager.py, lines
    112-159 and 290-309)

The entries directory is modelled as an association list from slug to entry
(metadata's `expires_at` plus the stored content); the index as an
association list from slug to alias list. -/

/-- One cache entry: the parsed shape of `metadata.json`'s `expires_at`
field, and the full text of `content.md`. -/
structure CacheEntry where
  expires : ExpiresField
  content : String
deriving DecidableEq

/-- `get_entry`: look the slug up in the entries directory.  (Missing
metadata/content files or unparseable metadata yield `None`.) -/
def get_entry (entries : List (String × CacheEntry)) (slug : String) :
    Option CacheEntry :=
  (entries.find? (fun e => e.1 == slug)).map Prod.snd

/-- `find_by_alias`: the normalized topic when it is an index key, else the
first index slug one of whose normalized aliases equals it. -/
def find_by_alias (index : List (String × List String)) (topic : String) :
    Option String :=
  let normalized := normalize_slug topic
  if (index.find? (fun e => e.1 == normalized)).isSome then some normalized
  else (index.find? (fun e => (e.2.map normalize_slug).contains normalized)).map Prod.fst

/-- Python's `a or b` for an optional string (falsy = `None` or `""`). -/
def pyOrSlug : Option String → String → String
  | some s, dflt => if s.isEmpty then dflt else s
  | none, dflt => dflt

/-- The JSON object printed by `cmd_get` (slug, full content, cache_status). -/
structure GetResult where
  slug : String
  content : String
  cacheStatus : String
deriving DecidableEq

/-- `cmd_get`: resolve the slug, return exit code 1 with an error when no
entry exists, else exit code 0 and the full entry with `cache_status`
"expired" or "valid". -/
def cmd_get (index : List (String × List String)) (entries : List (String × CacheEntry))
    (argSlug : String) (now : Int) : Nat × Option GetResult :=
  let slug := pyOrSlug (find_by_alias index argSlug) (normalize_slug argSlug)
  match get_entry entries slug with
  | none => (1, none)
  | some e =>
    (0, some ⟨slug, e.content, if checkExpiration e.expires now then "expired" else "valid"⟩)

/-- Claim C10: for every existing cache entry, `cmd_get` exits 0 and prints
the entry's full stored content even when the entry is expired, reporting
`cache_status` "expired" rather than failing; whether the entry is found and
what content is printed do not depend on the current time (no entry is
deleted or withheld merely because it expired — only the status string
depends on `now`). -/
theorem cmd_get_returns_expired_entries (index : List (String × List String))
    (entries : List (String × CacheEntry)) (argSlug : String) (now : Int) :
    (∀ e, get_entry entries
        (pyOrSlug (find_by_alias index argSlug) (normalize_slug argSlug)) = some e →
      cmd_get index entries argSlug now =
        (0, some ⟨pyOrSlug (find_by_alias index argSlug) (normalize_slug argSlug),
          e.content,
          if checkExpiration e.expires now then "expired" else "valid"⟩)) ∧
    (∀ e, get_entry entries
        (pyOrSlug (find_by_alias index argSlug) (normalize_slug argSlug)) = some e →
      checkExpiration e.expires now = true →
      cmd_get index entries argSlug now =
        (0, some ⟨pyOrSlug (find_by_alias index argSlug) (normalize_slug argSlug),
          e.content, "expired"⟩)) ∧
    (get_entry entries
        (pyOrSlug (find_by_alias index argSlug) (normalize_slug argSlug)) = none →
      cmd_get index entries argSlug now = (1, none)) ∧
    (∀ now2 : Int,
      (cmd_get index entries argSlug now).1 = (cmd_get index entries argSlug now2).1 ∧
      ((cmd_get index entries argSlug now).2).map (fun r => r.content) =
        ((cmd_get index entries argSlug now2).2).map (fun r => r.content)) := by
  refine ⟨?_, ?_, ?_, ?_⟩
  · intro e he
    simp [cmd_get, he]
  · intro e he hexp
    simp [cmd_get, he, hexp]
  · intro he
    simp [cmd_get, he]
  · intro now2
    cases he : get_entry entries
        (pyOrSlug (find_by_alias index argSlug) (normalize_slug argSlug)) with
    | none => simp [cmd_get, he]
    | some e => simp [cmd_get, he]

/-- Witness for C10: an entry stored under "topic" that expired at time 5 is
still returned in full at time 9, with exit code 0 and status "expired". -/
theorem cmd_get_returns_expired_entries_witness :
    cmd_get [("topic", [])] [("topic", ⟨.parsed 5, "FULL CONTENT"⟩)] "topic" 9 =
      (0, some ⟨"topic", "FULL CONTENT", "expired"⟩) := by
  have h := (cmd_get_returns_expired_entries [("topic", [])]
    [("topic", ⟨.parsed 5, "FULL CONTENT"⟩)] "topic" 9).2.1
    ⟨.parsed 5, "FULL CONTENT"⟩ (by decide) (by decide)
  have hslug : pyOrSlug (find_by_alias [("topic", [])] "topic")
      (normalize_slug "topic") = "topic" := by decide
  rw [h, hslug]
